import Mathlib

/-!
Verification of the tokenflow repository's three core primitives against its
specification: the sliding-window admission limiter (src/lib/rate-limiter.ts),
the content-addressed response cache (src/lib/cache.ts), and the bounded
activity log (src/lib/activity-stream.ts).

All state lives in an external Redis store; we shallowly embed the store
operations each function performs.  Times and scores are modelled as `Int`
(JavaScript `Date.now()` values and arithmetic on them), counters as `Nat`.
-/

namespace Tokenflow

/-! ## Admission limiter (src/lib/rate-limiter.ts)

The per-identity state is a Redis sorted set whose members are unique tokens
(timestamp plus a random disambiguator) scored by arrival time, together with
the key's pending expiry.  We model the sorted set as the list of scores of
its members (each `zadd` with a fresh random token inserts a new member) and
the key expiry as the absolute time at which the key would vanish. -/

structure RateLimitResult where
  allowed : Bool
  remaining : Int
  resetAt : Int
deriving DecidableEq

structure RLState where
  entries : List Int
  expiresAt : Option Int
deriving DecidableEq

/-- Redis ZREMRANGEBYSCORE key lo hi: removes every member whose score lies
in the closed interval [lo, hi]. -/
def zremrangebyscore (lo hi : Int) (l : List Int) : List Int :=
  l.filter (fun s => decide (¬ (lo ≤ s ∧ s ≤ hi)))

/-- Redis ZRANGE key 0 0 WITHSCORES on a sorted set: the score of the
lowest-scored member, if any. -/
def oldestScore (l : List Int) : Option Int :=
  l.min?

/-- The key built by checkRateLimit from the caller's identity. -/
def rateLimitKey (key : String) : String :=
  "ratelimit:" ++ key

/-- Shallow embedding of checkRateLimit (src/lib/rate-limiter.ts, lines
15-66), error-free path: purge entries scored in [0, now - windowMs], count
the survivors, deny when count >= limit (resetAt from the oldest surviving
score, falling back to now + windowMs when none remains), otherwise insert a
member scored now (the random token is fresh, so zadd inserts) and refresh
the key expiry to windowMs. -/
def checkRateLimit (now limit windowMs : Int) (st : RLState) :
    RateLimitResult × RLState :=
  let windowStart := now - windowMs
  let entries1 := zremrangebyscore 0 windowStart st.entries
  let count : Int := entries1.length
  if limit ≤ count then
    let resetAt :=
      match oldestScore entries1 with
      | some m => m + windowMs
      | none => now + windowMs
    ({ allowed := false, remaining := 0, resetAt := resetAt },
     { entries := entries1, expiresAt := st.expiresAt })
  else
    ({ allowed := true, remaining := limit - count - 1, resetAt := now + windowMs },
     { entries := entries1 ++ [now], expiresAt := some (now + windowMs) })

/-- A sequential run: one checkRateLimit call per listed time, threading the
store state, collecting the results. -/
def runCalls (limit windowMs : Int) : List Int → RLState → List RateLimitResult × RLState
  | [], st => ([], st)
  | t :: ts, st =>
    let p := checkRateLimit t limit windowMs st
    let q := runCalls limit windowMs ts p.2
    (p.1 :: q.1, q.2)

/-- The store operations checkRateLimit issues, in program order. -/
inductive StoreOp where
  | zrem
  | zcard
  | zrange
  | zadd
  | pexpire
deriving DecidableEq

/-- Shallow embedding of checkRateLimit including its try/catch: `f op = true`
means the store operation `op` raises when executed.  The first raising
operation on the executed path aborts the remaining steps and lands in the
catch block, which returns the fail-open result; the returned Bool records
whether the catch block ran. -/
def checkRateLimitE (f : StoreOp → Bool) (now limit windowMs : Int) (st : RLState) :
    RateLimitResult × RLState × Bool :=
  let failRes : RateLimitResult :=
    { allowed := true, remaining := limit, resetAt := now + windowMs }
  if f StoreOp.zrem then (failRes, st, true)
  else
    let entries1 := zremrangebyscore 0 (now - windowMs) st.entries
    let st1 : RLState := { entries := entries1, expiresAt := st.expiresAt }
    if f StoreOp.zcard then (failRes, st1, true)
    else
      let count : Int := entries1.length
      if limit ≤ count then
        if f StoreOp.zrange then (failRes, st1, true)
        else
          let resetAt :=
            match oldestScore entries1 with
            | some m => m + windowMs
            | none => now + windowMs
          ({ allowed := false, remaining := 0, resetAt := resetAt }, st1, false)
      else
        if f StoreOp.zadd then (failRes, st1, true)
        else
          let st2 : RLState := { entries := entries1 ++ [now], expiresAt := st.expiresAt }
          if f StoreOp.pexpire then (failRes, st2, true)
          else
            ({ allowed := true, remaining := limit - count - 1, resetAt := now + windowMs },
             { entries := entries1 ++ [now], expiresAt := some (now + windowMs) }, false)

example :
    checkRateLimit 6 1 10 ⟨[5], none⟩ =
      ({ allowed := false, remaining := 0, resetAt := 15 }, ⟨[5], none⟩) := by
  decide

example :
    checkRateLimit 5 2 10 ⟨[], none⟩ =
      ({ allowed := true, remaining := 1, resetAt := 15 }, ⟨[5], some 15⟩) := by
  decide

lemma zrem_keep_all (lo hi : Int) (l : List Int)
    (h : ∀ s ∈ l, ¬ (lo ≤ s ∧ s ≤ hi)) :
    zremrangebyscore lo hi l = l := by
  unfold zremrangebyscore
  apply List.filter_eq_self.mpr
  intro a ha
  have := h a ha
  simp only [decide_eq_true_eq]
  omega

lemma zrem_drop_all (lo hi : Int) (l : List Int)
    (h : ∀ s ∈ l, lo ≤ s ∧ s ≤ hi) :
    zremrangebyscore lo hi l = [] := by
  unfold zremrangebyscore
  apply List.filter_eq_nil_iff.mpr
  intro a ha
  have := h a ha
  simp only [decide_eq_true_eq]
  omega

/-- When every stored score is at least `t1` and the call time is within
`windowMs` of `t1`, the purge removes nothing, and a call is admitted as long
as the count is still below the limit; running a whole list of such calls
admits every one and leaves exactly the old entries followed by the call
times. -/
lemma runCalls_all_allowed (limit windowMs t1 : Int) (ts : List Int) :
    ∀ st : RLState,
      (∀ x ∈ st.entries, t1 ≤ x) →
      (∀ t ∈ ts, t1 ≤ t ∧ t - windowMs < t1) →
      (st.entries.length : Int) + ts.length ≤ limit →
      (runCalls limit windowMs ts st).2.entries = st.entries ++ ts ∧
      ∀ r ∈ (runCalls limit windowMs ts st).1, r.allowed = true := by
  induction ts with
  | nil =>
    intro st _ _ _
    simp [runCalls]
  | cons t ts ih =>
    intro st hst hts hlen
    have hkeep : zremrangebyscore 0 (t - windowMs) st.entries = st.entries := by
      apply zrem_keep_all
      intro s hs
      have h1 := hst s hs
      have h2 := (hts t (by simp)).2
      omega
    have hcount : ¬ (limit ≤ (st.entries.length : Int)) := by
      simp only [List.length_cons] at hlen
      push_cast at hlen
      omega
    have hstep : checkRateLimit t limit windowMs st =
        ({ allowed := true, remaining := limit - st.entries.length - 1,
           resetAt := t + windowMs },
         { entries := st.entries ++ [t], expiresAt := some (t + windowMs) }) := by
      simp [checkRateLimit, hkeep, hcount]
    have hrec := ih ⟨st.entries ++ [t], some (t + windowMs)⟩
      (by
        intro y hy
        rcases List.mem_append.mp hy with hy | hy
        · exact hst y hy
        · have hy' : y = t := by simpa using hy
          rw [hy']
          exact (hts t (by simp)).1)
      (by
        intro u hu
        exact hts u (by simp [hu]))
      (by
        simp only [List.length_cons] at hlen
        simp only [List.length_append, List.length_cons, List.length_nil]
        push_cast at hlen ⊢
        omega)
    constructor
    · show (runCalls limit windowMs (t :: ts) st).2.entries = _
      simp only [runCalls, hstep]
      rw [hrec.1]
      simp
    · intro r hr
      simp only [runCalls, hstep, List.mem_cons] at hr
      rcases hr with hr | hr
      · subst hr; rfl
      · exact hrec.2 r hr

/-- A call on a state whose purge empties the window is admitted with
`remaining = limit - 1` (for a positive limit) and leaves just its own
entry. -/
lemma checkRateLimit_admit_of_empty (now limit windowMs : Int) (st : RLState)
    (hlim : 0 < limit)
    (h : zremrangebyscore 0 (now - windowMs) st.entries = []) :
    (checkRateLimit now limit windowMs st).1.allowed = true ∧
    (checkRateLimit now limit windowMs st).1.remaining = limit - 1 ∧
    (checkRateLimit now limit windowMs st).2.entries = [now] := by
  simp only [checkRateLimit, h]
  rw [if_neg (by simpa using hlim)]
  refine ⟨rfl, ?_, rfl⟩
  simp

/-- C1: sequential sliding-window correctness of checkRateLimit for a fixed
identity.  Starting from an empty window, if `limit` calls arrive at times
`ts` that all lie within less than `windowMs` of a common lower bound `t1`,
every one of them is admitted; a further call at `tN1` still inside that
interval is denied; and after at least `windowMs` elapses past every admitted
call with no calls in between, the next call is admitted again with
`remaining = limit - 1`. -/
theorem checkRateLimit_sliding_window (limit windowMs t1 tN1 t2 : Int) (ts : List Int)
    (hlim : 0 < limit) (hW : 0 < windowMs)
    (hlen : (ts.length : Int) = limit)
    (ht1 : 0 ≤ t1)
    (hts : ∀ t ∈ ts, t1 ≤ t ∧ t - windowMs < t1)
    (hN1 : tN1 - windowMs < t1)
    (ht2 : ∀ t ∈ ts, t + windowMs ≤ t2) :
    (∀ r ∈ (runCalls limit windowMs ts ⟨[], none⟩).1, r.allowed = true) ∧
    (runCalls limit windowMs ts ⟨[], none⟩).2.entries = ts ∧
    (checkRateLimit tN1 limit windowMs (runCalls limit windowMs ts ⟨[], none⟩).2).1.allowed
      = false ∧
    (checkRateLimit t2 limit windowMs
        (checkRateLimit tN1 limit windowMs (runCalls limit windowMs ts ⟨[], none⟩).2).2).1.allowed
      = true ∧
    (checkRateLimit t2 limit windowMs
        (checkRateLimit tN1 limit windowMs (runCalls limit windowMs ts ⟨[], none⟩).2).2).1.remaining
      = limit - 1 := by
  have hrun := runCalls_all_allowed limit windowMs t1 ts ⟨[], none⟩
    (by simp) hts (by simp [hlen])
  have hE : (runCalls limit windowMs ts ⟨[], none⟩).2.entries = ts := by
    have := hrun.1
    simpa using this
  have hkeepN1 : zremrangebyscore 0 (tN1 - windowMs) ts = ts := by
    apply zrem_keep_all
    intro s hs
    have := (hts s hs).1
    omega
  have hdeny : (checkRateLimit tN1 limit windowMs (runCalls limit windowMs ts ⟨[], none⟩).2).1.allowed
        = false ∧
      (checkRateLimit tN1 limit windowMs (runCalls limit windowMs ts ⟨[], none⟩).2).2.entries
        = ts := by
    simp only [checkRateLimit, hE, hkeepN1]
    rw [if_pos (le_of_eq hlen.symm)]
    simp
  have hdrop : zremrangebyscore 0 (t2 - windowMs) ts = [] := by
    apply zrem_drop_all
    intro s hs
    have h1 := (hts s hs).1
    have h2 := ht2 s hs
    omega
  have hfinal := checkRateLimit_admit_of_empty t2 limit windowMs
    (checkRateLimit tN1 limit windowMs (runCalls limit windowMs ts ⟨[], none⟩).2).2
    hlim (by rw [hdeny.2]; exact hdrop)
  exact ⟨hrun.2, hE, hdeny.1, hfinal.1, hfinal.2.1⟩

/-- Witness for C1 at limit 2, window 10: calls at 0 and 1 are admitted, a
third at 2 is denied, and a call at 11 is admitted with remaining 1. -/
theorem checkRateLimit_sliding_window_witness :
    (∀ r ∈ (runCalls 2 10 [0, 1] ⟨[], none⟩).1, r.allowed = true) ∧
    (runCalls 2 10 [0, 1] ⟨[], none⟩).2.entries = [0, 1] ∧
    (checkRateLimit 2 2 10 (runCalls 2 10 [0, 1] ⟨[], none⟩).2).1.allowed = false ∧
    (checkRateLimit 11 2 10
        (checkRateLimit 2 2 10 (runCalls 2 10 [0, 1] ⟨[], none⟩).2).2).1.allowed = true ∧
    (checkRateLimit 11 2 10
        (checkRateLimit 2 2 10 (runCalls 2 10 [0, 1] ⟨[], none⟩).2).2).1.remaining = 2 - 1 :=
  checkRateLimit_sliding_window 2 10 0 2 11 [0, 1] (by decide) (by decide) (by decide)
    (by decide) (by decide) (by decide) (by decide)

/-- C2: whenever a store operation executed inside checkRateLimit errors (the
catch flag is set), the call returns exactly the fail-open result
allowed = true, remaining = limit, resetAt = now + windowMs; when no executed
operation errors, the call behaves as the error-free checkRateLimit; and an
error in the very first store operation always lands in the catch block. -/
theorem checkRateLimitE_fail_open (f : StoreOp → Bool) (now limit windowMs : Int)
    (st : RLState) :
    ((checkRateLimitE f now limit windowMs st).2.2 = true →
      (checkRateLimitE f now limit windowMs st).1 =
        { allowed := true, remaining := limit, resetAt := now + windowMs }) ∧
    ((checkRateLimitE f now limit windowMs st).2.2 = false →
      (checkRateLimitE f now limit windowMs st).1 = (checkRateLimit now limit windowMs st).1 ∧
      (checkRateLimitE f now limit windowMs st).2.1 = (checkRateLimit now limit windowMs st).2) ∧
    (f StoreOp.zrem = true → (checkRateLimitE f now limit windowMs st).2.2 = true) := by
  by_cases hc : limit ≤ ((zremrangebyscore 0 (now - windowMs) st.entries).length : Int) <;>
    cases h1 : f StoreOp.zrem <;> cases h2 : f StoreOp.zcard <;>
    cases h3 : f StoreOp.zrange <;> cases h4 : f StoreOp.zadd <;>
    cases h5 : f StoreOp.pexpire <;>
    simp [checkRateLimitE, checkRateLimit, h1, h2, h3, h4, h5, hc]

/-- Witness for C2: with every store operation failing, a call that would
otherwise be denied (limit 1 with a live entry) returns the fail-open
result. -/
theorem checkRateLimitE_fail_open_witness :
    (checkRateLimitE (fun _ => true) 6 1 10 ⟨[5], none⟩).1 =
      { allowed := true, remaining := 1, resetAt := 16 } :=
  (checkRateLimitE_fail_open (fun _ => true) 6 1 10 ⟨[5], none⟩).1 (by decide)

/-- C7: when checkRateLimit denies, the returned resetAt is the score of the
oldest entry surviving the purge plus windowMs, and when no entry survives
the purge it is now + windowMs. -/
theorem checkRateLimit_resetAt_on_deny (now limit windowMs : Int) (st : RLState)
    (hdeny : (checkRateLimit now limit windowMs st).1.allowed = false) :
    (∀ m, oldestScore (zremrangebyscore 0 (now - windowMs) st.entries) = some m →
        (checkRateLimit now limit windowMs st).1.resetAt = m + windowMs) ∧
    (oldestScore (zremrangebyscore 0 (now - windowMs) st.entries) = none →
        (checkRateLimit now limit windowMs st).1.resetAt = now + windowMs) := by
  simp only [checkRateLimit] at hdeny ⊢
  split_ifs at hdeny ⊢ with h
  constructor
  · intro m hm
    simp [hm]
  · intro hm
    simp [hm]

/-- Witness for C7: a denied call (limit 1, one live entry scored 5 at time
6, window 10) reports resetAt 15 = 5 + 10 via the oldest surviving entry. -/
theorem checkRateLimit_resetAt_on_deny_witness :
    (∀ m, oldestScore (zremrangebyscore 0 (6 - 10) ([5] : List Int)) = some m →
        (checkRateLimit 6 1 10 ⟨[5], none⟩).1.resetAt = m + 10) ∧
    (oldestScore (zremrangebyscore 0 (6 - 10) ([5] : List Int)) = none →
        (checkRateLimit 6 1 10 ⟨[5], none⟩).1.resetAt = 6 + 10) :=
  checkRateLimit_resetAt_on_deny 6 1 10 ⟨[5], none⟩ (by decide)

/-- C10: a denied checkRateLimit call neither inserts a window entry nor
refreshes the key expiry: the key's expiry is unchanged and the surviving
entries are exactly the purge of the old ones (in particular a sublist of
them), so denied requests consume no window slot. -/
theorem checkRateLimit_deny_frame (now limit windowMs : Int) (st : RLState)
    (hdeny : (checkRateLimit now limit windowMs st).1.allowed = false) :
    (checkRateLimit now limit windowMs st).2.expiresAt = st.expiresAt ∧
    (checkRateLimit now limit windowMs st).2.entries =
      zremrangebyscore 0 (now - windowMs) st.entries ∧
    List.Sublist (checkRateLimit now limit windowMs st).2.entries st.entries := by
  simp only [checkRateLimit] at hdeny ⊢
  split_ifs at hdeny ⊢ with h
  exact ⟨rfl, rfl, List.filter_sublist _⟩

/-- Witness for C10: the denied call at time 6 (limit 1, entry scored 5,
window 10) leaves the entry list [5] and the expiry untouched. -/
theorem checkRateLimit_deny_frame_witness :
    (checkRateLimit 6 1 10 ⟨[5], some 15⟩).2.expiresAt = some 15 ∧
    (checkRateLimit 6 1 10 ⟨[5], some 15⟩).2.entries =
      zremrangebyscore 0 (6 - 10) [5] ∧
    List.Sublist (checkRateLimit 6 1 10 ⟨[5], some 15⟩).2.entries [5] :=
  checkRateLimit_deny_frame 6 1 10 ⟨[5], some 15⟩ (by decide)

/-- C8 counterexample: checkRateLimit performs no input validation.  With the
malformed inputs limit = 0 and windowMs = 0 it still runs the sliding-window
protocol — it purges the stored entry scored 1500 and returns an ordinary
denial result — instead of rejecting with a validation error. -/
theorem checkRateLimit_no_validation_counterexample :
    checkRateLimit 2000 0 0 ⟨[1500], none⟩ =
      ({ allowed := false, remaining := 0, resetAt := 2000 }, ⟨[], none⟩) ∧
    rateLimitKey "" = "ratelimit:" := by
  constructor
  · decide
  · rfl

/-- C8 amended: checkRateLimit never rejects malformed input; it runs the
sliding-window protocol regardless.  An empty identity simply yields the bare
key prefix; a non-positive limit always denies; a non-positive windowMs (with
a positive limit and entries scored in [0, now]) purges every entry and
admits. -/
theorem checkRateLimit_no_validation (now limit windowMs : Int) (st : RLState) :
    (limit ≤ 0 → (checkRateLimit now limit windowMs st).1.allowed = false) ∧
    (windowMs ≤ 0 → 0 < limit → (∀ s ∈ st.entries, 0 ≤ s ∧ s ≤ now) →
      (checkRateLimit now limit windowMs st).1.allowed = true ∧
      (checkRateLimit now limit windowMs st).2.entries = [now]) ∧
    rateLimitKey "" = "ratelimit:" := by
  refine ⟨?_, ?_, rfl⟩
  · intro hlim
    have hge : limit ≤ ((zremrangebyscore 0 (now - windowMs) st.entries).length : Int) :=
      le_trans hlim (Int.natCast_nonneg _)
    simp only [checkRateLimit]
    rw [if_pos hge]
  · intro hW hlim hsc
    have hdrop : zremrangebyscore 0 (now - windowMs) st.entries = [] := by
      apply zrem_drop_all
      intro s hs
      have := hsc s hs
      omega
    have h := checkRateLimit_admit_of_empty now limit windowMs st hlim hdrop
    exact ⟨h.1, h.2.2⟩

/-! ## Response cache (src/lib/cache.ts)

getCacheKey hashes the prompt with SHA-256 (node's crypto, which consumes
the prompt's UTF-8 bytes) and prefixes the hex digest with the cache
namespace tag.  We embed SHA-256 (FIPS 180-4) over byte lists, with 32-bit
words as Nat reduced mod 2^32. -/

def w32 (n : Nat) : Nat := n % 4294967296

def rotr32 (k n : Nat) : Nat := w32 ((n >>> k) ||| (n <<< (32 - k)))

def bigSigma0 (x : Nat) : Nat := (rotr32 2 x) ^^^ (rotr32 13 x) ^^^ (rotr32 22 x)

def bigSigma1 (x : Nat) : Nat := (rotr32 6 x) ^^^ (rotr32 11 x) ^^^ (rotr32 25 x)

def smallSigma0 (x : Nat) : Nat := (rotr32 7 x) ^^^ (rotr32 18 x) ^^^ (x >>> 3)

def smallSigma1 (x : Nat) : Nat := (rotr32 17 x) ^^^ (rotr32 19 x) ^^^ (x >>> 10)

def ch32 (e f g : Nat) : Nat := (e &&& f) ^^^ ((4294967295 ^^^ w32 e) &&& g)

def maj32 (a b c : Nat) : Nat := (a &&& b) ^^^ (a &&& c) ^^^ (b &&& c)

/-- The 64 SHA-256 round constants, written in decimal. -/
def shaK : List Nat :=
  [1116352408, 1899447441, 3049323471, 3921009573, 961987163, 1508970993,
   2453635748, 2870763221, 3624381080, 310598401, 607225278, 1426881987,
   1925078388, 2162078206, 2614888103, 3248222580, 3835390401, 4022224774,
   264347078, 604807628, 770255983, 1249150122, 1555081692, 1996064986,
   2554220882, 2821834349, 2952996808, 3210313671, 3336571891, 3584528711,
   113926993, 338241895, 666307205, 773529912, 1294757372, 1396182291,
   1695183700, 1986661051, 2177026350, 2456956037, 2730485921, 2820302411,
   3259730800, 3345764771, 3516065817, 3600352804, 4094571909, 275423344,
   430227734, 506948616, 659060556, 883997877, 958139571, 1322822218,
   1537002063, 1747873779, 1955562222, 2024104815, 2227730452, 2361852424,
   2428436474, 2756734187, 3204031479, 3329325298]

structure Sha256State where
  a : Nat
  b : Nat
  c : Nat
  d : Nat
  e : Nat
  f : Nat
  g : Nat
  h : Nat
deriving DecidableEq

/-- The eight SHA-256 initial hash values, written in decimal. -/
def initHash : Sha256State :=
  ⟨1779033703, 3144134277, 1013904242, 2773480762,
   1359893119, 2600822924, 528734635, 1541459225⟩

def shaRound (st : Sha256State) (k w : Nat) : Sha256State :=
  let t1 := w32 (st.h + bigSigma1 st.e + ch32 st.e st.f st.g + k + w)
  let t2 := w32 (bigSigma0 st.a + maj32 st.a st.b st.c)
  ⟨w32 (t1 + t2), st.a, st.b, st.c, w32 (st.d + t1), st.e, st.f, st.g⟩

def scheduleStep (ws : List Nat) : List Nat :=
  let n := ws.length
  ws ++ [w32 (smallSigma1 (ws.getD (n - 2) 0) + ws.getD (n - 7) 0 +
              smallSigma0 (ws.getD (n - 15) 0) + ws.getD (n - 16) 0)]

def extendSchedule (ws : List Nat) : List Nat :=
  Nat.iterate scheduleStep 48 ws

def compressBlock (hv : Sha256State) (block : List Nat) : Sha256State :=
  let ws := extendSchedule block
  let st := (List.zip shaK ws).foldl (fun s p => shaRound s p.1 p.2) hv
  ⟨w32 (hv.a + st.a), w32 (hv.b + st.b), w32 (hv.c + st.c), w32 (hv.d + st.d),
   w32 (hv.e + st.e), w32 (hv.f + st.f), w32 (hv.g + st.g), w32 (hv.h + st.h)⟩

/-- SHA-256 padding: 0x80, zeros to 56 mod 64, then the bit length as eight
big-endian bytes. -/
def shaPad (msg : List Nat) : List Nat :=
  let bitLen := msg.length * 8
  let z := (120 - ((msg.length + 1) % 64)) % 64
  msg ++ [128] ++ List.replicate z 0 ++
    [bitLen / 2 ^ 56 % 256, bitLen / 2 ^ 48 % 256, bitLen / 2 ^ 40 % 256,
     bitLen / 2 ^ 32 % 256, bitLen / 2 ^ 24 % 256, bitLen / 2 ^ 16 % 256,
     bitLen / 2 ^ 8 % 256, bitLen % 256]

/-- Split a list into chunks of k + 1 elements (last one possibly short). -/
def chunkList (k : Nat) (l : List Nat) : List (List Nat) :=
  if h : l = [] then []
  else l.take (k + 1) :: chunkList k (l.drop (k + 1))
termination_by l.length
decreasing_by
  simp only [List.length_drop]
  have : l.length ≠ 0 := fun hn => h (List.eq_nil_of_length_eq_zero hn)
  omega

/-- Big-endian word from bytes. -/
def wordOfBytes (bs : List Nat) : Nat :=
  bs.foldl (fun acc b => acc * 256 + b) 0

def sha256Words (msg : List Nat) : Sha256State :=
  ((chunkList 63 (shaPad msg)).map (fun b => (chunkList 3 b).map wordOfBytes)).foldl
    compressBlock initHash

def hexDigits : List Char := "0123456789abcdef".data

def hexDigit (n : Nat) : Char := hexDigits.getD n '0'

def wordHexChars (w : Nat) : List Char :=
  [hexDigit (w / 16 ^ 7 % 16), hexDigit (w / 16 ^ 6 % 16),
   hexDigit (w / 16 ^ 5 % 16), hexDigit (w / 16 ^ 4 % 16),
   hexDigit (w / 16 ^ 3 % 16), hexDigit (w / 16 ^ 2 % 16),
   hexDigit (w / 16 % 16), hexDigit (w % 16)]

def wordToHex (w : Nat) : String :=
  String.mk (wordHexChars w)

def sha256Hex (msg : List Nat) : String :=
  let s := sha256Words msg
  wordToHex s.a ++ wordToHex s.b ++ wordToHex s.c ++ wordToHex s.d ++
    wordToHex s.e ++ wordToHex s.f ++ wordToHex s.g ++ wordToHex s.h

/-- UTF-8 encoding of one character (node's hash.update consumes the prompt
as UTF-8 bytes). -/
def utf8EncodeChar (c : Char) : List Nat :=
  let n := c.toNat
  if n < 128 then [n]
  else if n < 2048 then [192 + n / 64, 128 + n % 64]
  else if n < 65536 then [224 + n / 4096, 128 + n / 64 % 64, 128 + n % 64]
  else [240 + n / 262144, 128 + n / 4096 % 64, 128 + n / 64 % 64, 128 + n % 64]

def utf8Bytes (s : String) : List Nat := (s.data.map utf8EncodeChar).flatten

/-- Shallow embedding of getCacheKey (src/lib/cache.ts, lines 7-10). -/
def getCacheKey (prompt : String) : String :=
  "cache:" ++ sha256Hex (utf8Bytes prompt)

/-- The cache's slice of the store: one string entry per key with an absolute
expiry time in milliseconds, plus the two counters stats:cache:hits and
stats:cache:misses. -/
structure CacheState where
  entries : List (String × String × Int)
  hits : Nat
  misses : Nat
deriving DecidableEq

/-- Redis GET: the value at the key if it exists and has not yet reached its
expiry time. -/
def redisGet (now : Int) (key : String) : List (String × String × Int) → Option String
  | [] => none
  | e :: rest =>
    if e.1 = key then (if now < e.2.2 then some e.2.1 else none)
    else redisGet now key rest

/-- Redis SETEX: overwrite the key with the value and a fresh TTL of
ttlSeconds. -/
def redisSetex (now : Int) (key : String) (ttlSeconds : Int) (v : String)
    (l : List (String × String × Int)) : List (String × String × Int) :=
  (key, v, now + ttlSeconds * 1000) :: l.filter (fun e => decide (e.1 ≠ key))

/-- Shallow embedding of getCachedResponse (src/lib/cache.ts, lines 15-35),
error-free path.  JavaScript truthiness: `if (cached)` takes the else branch
both for a missing key (null) and for a stored empty string; the function
returns `cached` itself either way. -/
def getCachedResponse (now : Int) (prompt : String) (st : CacheState) :
    Option String × CacheState :=
  match redisGet now (getCacheKey prompt) st.entries with
  | some v =>
    if v = "" then (some v, { st with misses := st.misses + 1 })
    else (some v, { st with hits := st.hits + 1 })
  | none => (none, { st with misses := st.misses + 1 })

/-- Shallow embedding of setCachedResponse (src/lib/cache.ts, lines 40-53),
error-free path. -/
def setCachedResponse (now : Int) (prompt response : String) (ttlSeconds : Int)
    (st : CacheState) : CacheState :=
  { st with entries := redisSetex now (getCacheKey prompt) ttlSeconds response st.entries }

/-- getCachedResponse including its try/catch: fGet means the redis.get
raises, fIncr means the counter increment raises.  Either way the catch
block returns null and no state change survives (INCR is atomic, and the
early raise skips the `return cached`). -/
def getCachedResponseE (fGet fIncr : Bool) (now : Int) (prompt : String)
    (st : CacheState) : Option String × CacheState :=
  if fGet then (none, st)
  else if fIncr then (none, st)
  else getCachedResponse now prompt st

/-- A sequence of cache lookups threading the store state. -/
def runLookups (now : Int) : List String → CacheState → CacheState
  | [], st => st
  | p :: ps, st => runLookups now ps (getCachedResponse now p st).2

lemma getCachedResponse_step (now : Int) (p : String) (st : CacheState) :
    (getCachedResponse now p st).2.hits + (getCachedResponse now p st).2.misses =
      st.hits + st.misses + 1 := by
  unfold getCachedResponse
  cases hr : redisGet now (getCacheKey p) st.entries with
  | none => simp; omega
  | some v => by_cases hv : v = "" <;> simp [hv] <;> omega

lemma runLookups_sum (now : Int) (ps : List String) :
    ∀ st : CacheState,
      (runLookups now ps st).hits + (runLookups now ps st).misses =
        st.hits + st.misses + ps.length := by
  induction ps with
  | nil => intro st; simp [runLookups]
  | cons p ps ih =>
    intro st
    have h1 := getCachedResponse_step now p st
    have h2 := ih (getCachedResponse now p st).2
    simp only [runLookups, List.length_cons]
    omega

/-- C3 counterexample: a present cache entry whose stored value is the empty
string.  The read succeeds and returns the entry, yet the miss counter — not
the hit counter — is incremented, because the code tests JavaScript
truthiness rather than presence. -/
theorem getCachedResponse_empty_hit_counterexample :
    redisGet 0 (getCacheKey "p") [(getCacheKey "p", "", 1000)] = some "" ∧
    (getCachedResponse 0 "p" ⟨[(getCacheKey "p", "", 1000)], 0, 0⟩).1 = some "" ∧
    (getCachedResponse 0 "p" ⟨[(getCacheKey "p", "", 1000)], 0, 0⟩).2.hits = 0 ∧
    (getCachedResponse 0 "p" ⟨[(getCacheKey "p", "", 1000)], 0, 0⟩).2.misses = 1 := by
  have hget : redisGet 0 (getCacheKey "p") [(getCacheKey "p", "", 1000)] = some "" := by
    simp [redisGet]
  refine ⟨hget, ?_, ?_, ?_⟩ <;> simp [getCachedResponse, hget]

/-- C3 amended: every lookup increments exactly one counter — the hit counter
when the entry is present with a non-empty value, the miss counter when it is
absent or its value is the empty string — so over any sequence of lookups
hits + misses grows by exactly the number of lookups. -/
theorem cache_counter_exclusive (now : Int) (p : String) (st : CacheState)
    (ps : List String) :
    (∀ v, redisGet now (getCacheKey p) st.entries = some v → v ≠ "" →
      (getCachedResponse now p st).2.hits = st.hits + 1 ∧
      (getCachedResponse now p st).2.misses = st.misses) ∧
    (redisGet now (getCacheKey p) st.entries = none ∨
        redisGet now (getCacheKey p) st.entries = some "" →
      (getCachedResponse now p st).2.misses = st.misses + 1 ∧
      (getCachedResponse now p st).2.hits = st.hits) ∧
    (runLookups now ps st).hits + (runLookups now ps st).misses =
      st.hits + st.misses + ps.length := by
  refine ⟨?_, ?_, runLookups_sum now ps st⟩
  · intro v hv hne
    simp [getCachedResponse, hv, hne]
  · intro hv
    rcases hv with hv | hv <;> simp [getCachedResponse, hv]

/-- Witness for C3's amended theorem: a lookup of an absent key increments
the miss counter, and a two-lookup run adds two to hits + misses. -/
theorem cache_counter_exclusive_witness :
    ((getCachedResponse 0 "q" ⟨[], 3, 4⟩).2.misses = 4 + 1 ∧
      (getCachedResponse 0 "q" ⟨[], 3, 4⟩).2.hits = 3) ∧
    (runLookups 0 ["q", "q"] ⟨[], 3, 4⟩).hits +
      (runLookups 0 ["q", "q"] ⟨[], 3, 4⟩).misses = 3 + 4 + (["q", "q"] : List String).length :=
  ⟨(cache_counter_exclusive 0 "q" ⟨[], 3, 4⟩ []).2.1 (Or.inl rfl),
   (cache_counter_exclusive 0 "q" ⟨[], 3, 4⟩ ["q", "q"]).2.2⟩

/-- C4: storing a response and looking it up immediately returns it, and once
ttl seconds have elapsed the lookup returns absent (null). -/
theorem cache_roundtrip (now now2 : Int) (p r : String) (ttl : Int) (st : CacheState)
    (httl : 0 < ttl) :
    (getCachedResponse now p (setCachedResponse now p r ttl st)).1 = some r ∧
    (now + ttl * 1000 ≤ now2 →
      (getCachedResponse now2 p (setCachedResponse now p r ttl st)).1 = none) := by
  have hfresh : now < now + ttl * 1000 := by
    have : (0 : Int) < ttl * 1000 := mul_pos httl (by norm_num)
    omega
  have hg1 : redisGet now (getCacheKey p) (setCachedResponse now p r ttl st).entries
      = some r := by
    simp [setCachedResponse, redisSetex, redisGet, hfresh]
  constructor
  · by_cases hr : r = ""
    · subst hr
      simp [getCachedResponse, hg1]
    · simp [getCachedResponse, hg1, hr]
  · intro h2
    have hg2 : redisGet now2 (getCacheKey p) (setCachedResponse now p r ttl st).entries
        = none := by
      simp [setCachedResponse, redisSetex, redisGet]
      omega
    simp [getCachedResponse, hg2]

/-- Witness for C4 at prompt hello, response world, ttl 1s, stored at 0 and
looked up again at 1000. -/
theorem cache_roundtrip_witness :
    (getCachedResponse 0 "hello" (setCachedResponse 0 "hello" "world" 1 ⟨[], 0, 0⟩)).1
      = some "world" ∧
    (getCachedResponse 1000 "hello" (setCachedResponse 0 "hello" "world" 1 ⟨[], 0, 0⟩)).1
      = none :=
  ⟨(cache_roundtrip 0 1000 "hello" "world" 1 ⟨[], 0, 0⟩ (by decide)).1,
   (cache_roundtrip 0 1000 "hello" "world" 1 ⟨[], 0, 0⟩ (by decide)).2 (by decide)⟩

lemma hexDigit_mem (n : Nat) : hexDigit n ∈ hexDigits := by
  unfold hexDigit
  rcases Nat.lt_or_ge n 16 with h | h
  · interval_cases n <;> decide
  · rw [List.getD_eq_default]
    · decide
    · have h16 : hexDigits.length = 16 := rfl
      omega

lemma wordToHex_chars (w : Nat) : ∀ c ∈ (wordToHex w).data, c ∈ hexDigits := by
  intro c hc
  have hc' : c ∈ wordHexChars w := hc
  simp only [wordHexChars, List.mem_cons, List.not_mem_nil, or_false] at hc'
  rcases hc' with rfl | rfl | rfl | rfl | rfl | rfl | rfl | rfl <;> exact hexDigit_mem _

lemma wordToHex_length (w : Nat) : (wordToHex w).length = 8 := rfl

lemma sha256Hex_chars (m : List Nat) : ∀ c ∈ (sha256Hex m).data, c ∈ hexDigits := by
  intro c hc
  simp only [sha256Hex, String.data_append, List.mem_append] at hc
  rcases hc with ((((((h | h) | h) | h) | h) | h) | h) | h <;> exact wordToHex_chars _ c h

lemma sha256Hex_length (m : List Nat) : (sha256Hex m).length = 64 := by
  simp [sha256Hex, String.length_append, wordToHex_length]

/-- C5: getCacheKey is a pure deterministic function; equal prompts give the
equal key, equal keys force equal prompts up to a SHA-256 collision, and
every key is the cache namespace tag followed by a 64-character lowercase
hex digest. -/
theorem getCacheKey_deterministic_hex (p1 p2 p : String) :
    (p1 = p2 → getCacheKey p1 = getCacheKey p2) ∧
    (getCacheKey p1 = getCacheKey p2 →
      p1 = p2 ∨ (sha256Hex (utf8Bytes p1) = sha256Hex (utf8Bytes p2) ∧ p1 ≠ p2)) ∧
    (∃ d, getCacheKey p = "cache:" ++ d ∧ d.length = 64 ∧ ∀ c ∈ d.data, c ∈ hexDigits) := by
  refine ⟨fun h => by rw [h], ?_, ?_⟩
  · intro h
    by_cases hp : p1 = p2
    · exact Or.inl hp
    · refine Or.inr ⟨?_, hp⟩
      have hdata := congrArg String.data h
      simp only [getCacheKey, String.data_append] at hdata
      exact String.ext (List.append_cancel_left hdata)
  · exact ⟨sha256Hex (utf8Bytes p), rfl, sha256Hex_length _, sha256Hex_chars _⟩

/-- Witness for C5: determinism, the collision-free reading, and the shape of
the digest at concrete prompts. -/
theorem getCacheKey_deterministic_hex_witness :
    getCacheKey "a" = getCacheKey "a" ∧
    ("a" = "a" ∨ (sha256Hex (utf8Bytes "a") = sha256Hex (utf8Bytes "a") ∧ "a" ≠ "a")) ∧
    (∃ d, getCacheKey "b" = "cache:" ++ d ∧ d.length = 64 ∧ ∀ c ∈ d.data, c ∈ hexDigits) :=
  ⟨(getCacheKey_deterministic_hex "a" "a" "b").1 rfl,
   (getCacheKey_deterministic_hex "a" "a" "b").2.1 rfl,
   (getCacheKey_deterministic_hex "a" "a" "b").2.2⟩

/-- C9: if the store read inside getCachedResponse fails, the call returns
absent (null) and leaves both counters — and the whole cache state —
untouched, whatever the increments would have done. -/
theorem getCachedResponseE_read_failure (fIncr : Bool) (now : Int) (p : String)
    (st : CacheState) :
    getCachedResponseE true fIncr now p st = (none, st) := by
  simp [getCachedResponseE]

/-- Witness for C8's amended theorem: limit 0 denies; windowMs 0 with limit 3
purges the stored entry and admits, leaving only the new entry. -/
theorem checkRateLimit_no_validation_witness :
    ((checkRateLimit 5 0 10 ⟨[], none⟩).1.allowed = false) ∧
    ((checkRateLimit 5 3 0 ⟨[2], none⟩).1.allowed = true ∧
      (checkRateLimit 5 3 0 ⟨[2], none⟩).2.entries = [5]) ∧
    rateLimitKey "" = "ratelimit:" :=
  ⟨(checkRateLimit_no_validation 5 0 10 ⟨[], none⟩).1 (by decide),
   (checkRateLimit_no_validation 5 3 0 ⟨[2], none⟩).2.1 (by decide) (by decide) (by decide),
   (checkRateLimit_no_validation 5 0 10 ⟨[], none⟩).2.2⟩

/-! ## Activity log (src/unnamed/part_000, activity-stream)

Events are appended to the Redis stream activity:stream with
XADD MAXLEN ~ 100 — *approximate* trimming — and read back newest-first with
XREVRANGE ... COUNT n.  We model the stream as a list of stored events in
append order.  String (de)serialization of the fields through the store is
elided (the store returns the fields it was given); ids are the
store-assigned, increasing entry ids. -/

structure ActivityEventInput where
  type : String
  ip : String
  prompt : Option String
  cached : Bool
  blocked : Bool
deriving DecidableEq

structure StoredEvent where
  id : Nat
  type : String
  ip : String
  prompt : String
  cached : Bool
  blocked : Bool
  timestamp : Int
deriving DecidableEq

structure ActivityEvent where
  id : Nat
  timestamp : Int
  type : String
  ip : String
  prompt : Option String
  cached : Bool
  blocked : Bool
deriving DecidableEq

def MAX_STREAM_LENGTH : Nat := 100

/-- Modelled from the spec: XADD with MAXLEN ~ cap trims approximately — "the
store may trim with bounded slack rather than exactly at the boundary".  The
store keeps the most recent k entries where k never drops below the cap (when
that many exist) and never exceeds cap + slack; `keep` is the store's own
choice for this call. -/
def capTrim (cap slack keep : Nat) (s : List StoredEvent) : List StoredEvent :=
  let k := min s.length (min (max cap keep) (cap + slack))
  s.drop (s.length - k)

/-- Shallow embedding of addActivityEvent (activity-stream, lines 19-44):
build the field record (prompt defaulted to the empty string, timestamp
assigned now), append it to the stream, let the store trim approximately at
MAX_STREAM_LENGTH. -/
def addActivityEvent (slack keep : Nat) (now : Int) (eid : Nat)
    (e : ActivityEventInput) (s : List StoredEvent) : List StoredEvent :=
  let eventData : StoredEvent :=
    { id := eid, type := e.type, ip := e.ip, prompt := e.prompt.getD "",
      cached := e.cached, blocked := e.blocked, timestamp := now }
  capTrim MAX_STREAM_LENGTH slack keep (s ++ [eventData])

/-- Reconstitute a structured event from a raw record (activity-stream,
lines 56-72): an empty prompt becomes absent. -/
def parseStoredEvent (se : StoredEvent) : ActivityEvent :=
  { id := se.id, timestamp := se.timestamp, type := se.type, ip := se.ip,
    prompt := if se.prompt = "" then none else some se.prompt,
    cached := se.cached, blocked := se.blocked }

/-- Shallow embedding of getRecentActivity (activity-stream, lines 49-78):
XREVRANGE + - COUNT count yields the newest `count` entries newest-first,
each parsed into a structured event. -/
def getRecentActivity (count : Nat) (s : List StoredEvent) : List ActivityEvent :=
  (s.reverse.take count).map parseStoredEvent

/-- One append call: its clock reading, store-assigned id, event, and the
store's trim choice for this call. -/
structure AppendOp where
  now : Int
  eid : Nat
  ev : ActivityEventInput
  keep : Nat

/-- The stored record an append op produces. -/
def storedOf (op : AppendOp) : StoredEvent :=
  { id := op.eid, type := op.ev.type, ip := op.ev.ip, prompt := op.ev.prompt.getD "",
    cached := op.ev.cached, blocked := op.ev.blocked, timestamp := op.now }

/-- A sequence of appends threading the stream. -/
def runAppends (slack : Nat) : List AppendOp → List StoredEvent → List StoredEvent
  | [], s => s
  | op :: ops, s =>
    runAppends slack ops (addActivityEvent slack op.keep op.now op.eid op.ev s)

lemma capTrim_length (cap slack keep : Nat) (s : List StoredEvent) :
    (capTrim cap slack keep s).length =
      min s.length (min (max cap keep) (cap + slack)) := by
  simp only [capTrim, List.length_drop]
  omega

lemma capTrim_suffix (cap slack keep : Nat) (s : List StoredEvent) :
    (capTrim cap slack keep s) <:+ s :=
  List.drop_suffix _ _

lemma addActivityEvent_eq (slack : Nat) (op : AppendOp) (s : List StoredEvent) :
    addActivityEvent slack op.keep op.now op.eid op.ev s =
      capTrim MAX_STREAM_LENGTH slack op.keep (s ++ [storedOf op]) := rfl

lemma runAppends_length_le (slack : Nat) (ops : List AppendOp) :
    ∀ s : List StoredEvent,
      (runAppends slack ops s).length ≤ max s.length (MAX_STREAM_LENGTH + slack) := by
  induction ops with
  | nil => intro s; simp [runAppends]
  | cons op ops ih =>
    intro s
    have h1 := capTrim_length MAX_STREAM_LENGTH slack op.keep (s ++ [storedOf op])
    have h2 := ih (addActivityEvent slack op.keep op.now op.eid op.ev s)
    rw [addActivityEvent_eq] at h2
    simp only [runAppends, addActivityEvent_eq]
    simp only [List.length_append, List.length_cons, List.length_nil] at h1
    have hcap : MAX_STREAM_LENGTH = 100 := rfl
    omega

lemma runAppends_length_ge (slack : Nat) (ops : List AppendOp) :
    ∀ s : List StoredEvent,
      min (s.length + ops.length) MAX_STREAM_LENGTH ≤ (runAppends slack ops s).length := by
  induction ops with
  | nil => intro s; simp [runAppends]
  | cons op ops ih =>
    intro s
    have h1 := capTrim_length MAX_STREAM_LENGTH slack op.keep (s ++ [storedOf op])
    have h2 := ih (addActivityEvent slack op.keep op.now op.eid op.ev s)
    rw [addActivityEvent_eq] at h2
    simp only [runAppends, addActivityEvent_eq]
    simp only [List.length_append, List.length_cons, List.length_nil] at h1
    simp only [List.length_cons]
    have hcap : MAX_STREAM_LENGTH = 100 := rfl
    omega

lemma suffix_append_right {α : Type} {l1 l2 t : List α} (h : l1 <:+ l2) :
    l1 ++ t <:+ l2 ++ t := by
  obtain ⟨u, hu⟩ := h
  exact ⟨u, by rw [← hu, List.append_assoc]⟩

lemma runAppends_suffix (slack : Nat) (ops : List AppendOp) :
    ∀ s : List StoredEvent, (runAppends slack ops s) <:+ s ++ ops.map storedOf := by
  induction ops with
  | nil => intro s; simp [runAppends]
  | cons op ops ih =>
    intro s
    have h1 : capTrim MAX_STREAM_LENGTH slack op.keep (s ++ [storedOf op])
        <:+ s ++ [storedOf op] := capTrim_suffix _ _ _ _
    have h2 := ih (addActivityEvent slack op.keep op.now op.eid op.ev s)
    rw [addActivityEvent_eq] at h2
    simp only [runAppends, addActivityEvent_eq]
    have h3 := suffix_append_right (t := ops.map storedOf) h1
    have h4 := h2.trans h3
    simpa using h4

set_option maxRecDepth 100000 in
/-- C6 counterexample: with the store's approximate trimming (slack 1, the
store electing to keep 101 entries), 101 appends leave 101 entries and
getRecentActivity 1000 returns 101 events — more than the configured cap of
100, so "at most 100" does not hold under MAXLEN ~. -/
theorem activity_log_over_cap_counterexample :
    MAX_STREAM_LENGTH = 100 ∧
    100 < (getRecentActivity 1000 (runAppends 1
      ((List.range 101).map
        (fun i => ⟨Int.ofNat i, i, ⟨"request", "ip", none, false, false⟩, 101⟩)) [])).length := by
  constructor
  · rfl
  · decide

/-- C6 amended: under the store's approximate trimming with slack, after any
sequence of appends with nondecreasing timestamps, getRecentActivity 1000
returns at least min(M, 100) and at most 100 + slack events, ordered
most-recent-first by timestamp; oldest events are the ones trimmed (the
retained stream is always a suffix of the append history). -/
theorem activity_log_capped (slack : Nat) (ops : List AppendOp)
    (hmono : (ops.map (fun o => o.now)).Chain' (fun a b => a ≤ b)) :
    (getRecentActivity 1000 (runAppends slack ops [])).length
      ≤ MAX_STREAM_LENGTH + slack ∧
    min ops.length MAX_STREAM_LENGTH
      ≤ (getRecentActivity 1000 (runAppends slack ops [])).length ∧
    ((getRecentActivity 1000 (runAppends slack ops [])).map
        (fun e => e.timestamp)).Chain' (fun a b => b ≤ a) := by
  have hlen : (getRecentActivity 1000 (runAppends slack ops [])).length
      = min 1000 (runAppends slack ops []).length := by
    simp [getRecentActivity]
  have hle := runAppends_length_le slack ops []
  have hge := runAppends_length_ge slack ops []
  simp only [List.length_nil] at hle hge
  have hcap : MAX_STREAM_LENGTH = 100 := rfl
  refine ⟨?_, ?_, ?_⟩
  · omega
  · omega
  · have hsuf := runAppends_suffix slack ops []
    simp only [List.nil_append] at hsuf
    have hsub : List.Sublist ((runAppends slack ops []).map (fun se => se.timestamp))
        ((ops.map storedOf).map (fun se => se.timestamp)) :=
      hsuf.sublist.map (fun se => se.timestamp)
    have hchain : ((ops.map storedOf).map (fun se => se.timestamp)).Chain'
        (fun a b => a ≤ b) := by
      rw [List.map_map]
      exact hmono
    have hfchain : ((runAppends slack ops []).map (fun se => se.timestamp)).Chain'
        (fun a b => a ≤ b) := hchain.sublist hsub
    have hgoal : (getRecentActivity 1000 (runAppends slack ops [])).map
        (fun e => e.timestamp)
        = (((runAppends slack ops []).map (fun se => se.timestamp)).reverse).take 1000 := by
      simp [getRecentActivity, List.map_map, List.map_take, List.map_reverse]
      rfl
    rw [hgoal]
    have hrev : (((runAppends slack ops []).map (fun se => se.timestamp)).reverse).Chain'
        (fun a b => b ≤ a) := by
      rw [List.chain'_reverse]
      exact hfchain
    letI : IsTrans Int (fun a b : Int => b ≤ a) := ⟨fun a b c h1 h2 => le_trans h2 h1⟩
    exact hrev.sublist (List.take_sublist _ _)

/-- Witness for C6's amended theorem: two appends at times 0 and 1 with exact
trimming (slack 0) give a recent list of length 2 ≥ min 2 100, at most 100,
ordered newest-first. -/
theorem activity_log_capped_witness :
    (getRecentActivity 1000 (runAppends 0
        [⟨0, 0, ⟨"request", "a", none, false, false⟩, 0⟩,
         ⟨1, 1, ⟨"request", "b", none, false, false⟩, 0⟩] [])).length
      ≤ MAX_STREAM_LENGTH + 0 ∧
    min ([⟨0, 0, ⟨"request", "a", none, false, false⟩, 0⟩,
          ⟨1, 1, ⟨"request", "b", none, false, false⟩, 0⟩] : List AppendOp).length
        MAX_STREAM_LENGTH
      ≤ (getRecentActivity 1000 (runAppends 0
          [⟨0, 0, ⟨"request", "a", none, false, false⟩, 0⟩,
           ⟨1, 1, ⟨"request", "b", none, false, false⟩, 0⟩] [])).length ∧
    ((getRecentActivity 1000 (runAppends 0
        [⟨0, 0, ⟨"request", "a", none, false, false⟩, 0⟩,
         ⟨1, 1, ⟨"request", "b", none, false, false⟩, 0⟩] [])).map
        (fun e => e.timestamp)).Chain' (fun a b => b ≤ a) :=
  activity_log_capped 0
    [⟨0, 0, ⟨"request", "a", none, false, false⟩, 0⟩,
     ⟨1, 1, ⟨"request", "b", none, false, false⟩, 0⟩]
    (by norm_num [List.chain'_cons, List.chain'_singleton])

end Tokenflow
